import Mathlib

/-!
Shallow embedding of the update-normalization and dialog-pagination layer of
the `grammers` client, together with proofs of the specification claims.

The embedding covers:
* `src/lib/grammers-client/src/iterators/dialogs.rs` (namespace `Dlg`)
* `src/lib/grammers-client/src/client/updates.rs` (namespace `Upd`)

Machine integers (`i32`, `usize`) are represented as `Int`/`Nat`; the code
performs no arithmetic on them other than copies, equality tests and one
`i32 as usize` cast comparison, which is modelled explicitly
(`i32_as_usize`).  `HashMap` is modelled by a key-unique association list
with last-write-wins insert (`ainsert`), matching the observable behaviour
of `std::collections::HashMap` for the operations used (insert / remove).
Panics (`panic!`, `unwrap`) are modelled as distinguished fatal-error
constructors.
-/

set_option autoImplicit false

namespace Grammers

universe u v

/-! ## Association-list model of `std::collections::HashMap`

Keys are unique (insert erases any previous binding), so `alookup`,
`ainsert` and `aremove` have exactly the observable semantics of
`HashMap::get` / `HashMap::insert` / `HashMap::remove`. -/

/-- `HashMap` lookup: the value bound to `k`, if any. -/
def alookup {κ : Type u} {α : Type v} [DecidableEq κ] (k : κ) : List (κ × α) → Option α
  | [] => none
  | p :: m => if p.1 = k then some p.2 else alookup k m

/-- Erase every binding of key `k`. -/
def aerase {κ : Type u} {α : Type v} [DecidableEq κ] (k : κ) : List (κ × α) → List (κ × α)
  | [] => []
  | p :: m => if p.1 = k then aerase k m else p :: aerase k m

/-- `HashMap::insert`: bind `k` to `v`, replacing any previous binding. -/
def ainsert {κ : Type u} {α : Type v} [DecidableEq κ] (k : κ) (v : α) (m : List (κ × α)) :
    List (κ × α) :=
  (k, v) :: aerase k m

/-- `HashMap::remove`: return the value bound to `k` (if any) together with
the map without that binding; the map is unchanged when `k` is absent. -/
def aremove {κ : Type u} {α : Type v} [DecidableEq κ] (k : κ) (m : List (κ × α)) :
    Option α × List (κ × α) :=
  match alookup k m with
  | some v => (some v, aerase k m)
  | none => (none, m)

/-- The value of `i as usize` for an `i32` value `i` (sign-extension,
reinterpreted as an unsigned 64-bit value). -/
def i32_as_usize (i : Int) : Nat :=
  (i % (2 : Int) ^ 64).toNat

/-! ## Shared wire data model (`grammers-tl-types`)

These types are generated schema code, outside `src/`; their shapes are
reconstructed from their use sites in the two embedded source files.
Fields this layer never reads are abstracted into a single opaque `data`
payload where a placeholder is needed, and omitted otherwise. -/

/-- `tl::enums::Peer`. -/
inductive Peer : Type
  | user (user_id : Int)
  | chat (chat_id : Int)
  | channel (channel_id : Int)
  deriving DecidableEq, Repr

/-- `tl::types::User` (only the `id` field is read by this layer). -/
structure User where
  id : Int
  deriving DecidableEq, Repr

/-- `tl::types::Chat` (only the `id` field is read by this layer). -/
structure Chat where
  id : Int
  deriving DecidableEq, Repr

/-- `tl::types::Channel` (only the `id` field is read by this layer). -/
structure Channel where
  id : Int
  deriving DecidableEq, Repr

/-- `tl::enums::User`: a full user or the empty placeholder.  `TryInto` to
`tl::types::User` succeeds exactly on the full variant. -/
inductive UserEnum : Type
  | user (u : User)
  | empty (id : Int)
  deriving DecidableEq, Repr

/-- `tl::enums::Chat`: the variants handled by the code, plus the remaining
(empty / forbidden) variants, collapsed into `forbidden`: they hit the
`_ => {}` arm and are never read. -/
inductive ChatEnum : Type
  | chat (c : Chat)
  | channel (c : Channel)
  | forbidden (id : Int)
  deriving DecidableEq, Repr

/-- `tl::enums::User` to `tl::types::User` conversion (`user.try_into()`). -/
def userTryInto : UserEnum → Option User
  | .user u => some u
  | .empty _ => none

/-- `types::Entity`: tagged union of the three entity kinds. -/
inductive Entity : Type
  | user (u : User)
  | chat (c : Chat)
  | channel (c : Channel)
  deriving DecidableEq, Repr

/-- `tl::enums::InputPeer` as used for request offsets. -/
inductive InputPeer : Type
  | empty
  | user (user_id : Int)
  | chat (chat_id : Int)
  | channel (channel_id : Int)
  deriving DecidableEq, Repr

/-- Modelled from the spec: `types::Entity::to_input_peer` is not under
`src/`; the spec says an Entity "converts to an input-peer reference usable
in subsequent requests", addressed by its numeric id. -/
def Entity.to_input_peer : Entity → InputPeer
  | .user u => .user u.id
  | .chat c => .chat c.id
  | .channel c => .channel c.id

namespace Dlg

/-! ## `src/lib/grammers-client/src/iterators/dialogs.rs` -/

/-- `tl::enums::Message` as read by `dialogs.rs`: full and service messages
carry a destination peer, an id and a date; the empty placeholder carries
only an id. -/
inductive Message : Type
  | message (to_id : Peer) (id : Int) (date : Int)
  | service (to_id : Peer) (id : Int) (date : Int)
  | empty (id : Int)
  deriving DecidableEq, Repr

/-- Free function `peer_id` of `dialogs.rs`. -/
def peer_id : Peer → Int
  | .user user_id => user_id
  | .chat chat_id => chat_id
  | .channel channel_id => channel_id

/-- Free function `message_id` of `dialogs.rs`: the `(peer, id)` key of a
message, absent for the empty placeholder. -/
def message_id : Message → Option (Int × Int)
  | .message to_id id _ => some (peer_id to_id, id)
  | .service to_id id _ => some (peer_id to_id, id)
  | .empty _ => none

/-- `tl::types::Dialog`: the fields read by this layer. -/
structure DialogRaw where
  peer : Peer
  top_message : Int
  deriving DecidableEq, Repr

/-- `tl::enums::Dialog`: an ordinary dialog descriptor or a folder. -/
inductive DialogEnum : Type
  | dialog (d : DialogRaw)
  | folder (id : Int)
  deriving DecidableEq, Repr

/-- `types::Dialog`: the joined composite item. -/
structure TDialog where
  dialog : DialogRaw
  entity : Entity
  last_message : Option Message
  deriving DecidableEq, Repr

/-- `tl::functions::messages::GetDialogs`: the mutable page request. -/
structure GetDialogs where
  exclude_pinned : Bool
  folder_id : Option Int
  offset_date : Int
  offset_id : Int
  offset_peer : InputPeer
  limit : Int
  hash : Int
  deriving DecidableEq, Repr

/-- Modelled from the spec: `RpcIterBuffer` lives in
`src/lib/grammers-client/src/iterators` outside the provided sources.  The
spec describes it as holding the current cursor (`request`), a batch of
joined items, a nullable total and a `done` flag; items are appended with
`push` and the caller's pop is "taken from the end" of the batch. -/
structure RpcIterBuffer (Req : Type) (Item : Type) where
  request : Req
  batch : List Item
  total : Option Nat
  done : Bool
  deriving DecidableEq, Repr

/-- Modelled from the spec: a fresh buffer has an empty batch, no known
total and is not done. -/
def RpcIterBuffer.mk0 {Req Item : Type} (req : Req) : RpcIterBuffer Req Item :=
  { request := req, batch := [], total := none, done := false }

/-- Modelled from the spec: `push` appends one item to the batch. -/
def RpcIterBuffer.push {Req Item : Type} (b : RpcIterBuffer Req Item) (it : Item) :
    RpcIterBuffer Req Item :=
  { b with batch := b.batch ++ [it] }

/-- Modelled from the spec: `pop` removes and returns the item at the end
of the batch (the spec: "buffer pop taken from the end"). -/
def RpcIterBuffer.pop {Req Item : Type} (b : RpcIterBuffer Req Item) :
    Option Item × RpcIterBuffer Req Item :=
  (b.batch.getLast?, { b with batch := b.batch.dropLast })

/-- Modelled from the spec: more data is needed iff the batch is empty and
the listing is not done. -/
def RpcIterBuffer.should_fill {Req Item : Type} (b : RpcIterBuffer Req Item) : Bool :=
  b.batch.isEmpty && !b.done

/-- Constant `MAX_DIALOGS_PER_REQUEST` of `dialogs.rs`. -/
def MAX_DIALOGS_PER_REQUEST : Int := 100

/-- The `Dialogs` listing state: the generic buffer plus the two long-lived
join maps. -/
structure Dialogs where
  buffer : RpcIterBuffer GetDialogs TDialog
  entities : List (Int × Entity)
  messages : List ((Int × Int) × Message)
  deriving DecidableEq, Repr

/-- `Dialogs::iter`: the initial listing state. -/
def Dialogs.iter : Dialogs :=
  { buffer := RpcIterBuffer.mk0
      { exclude_pinned := false
        folder_id := none
        offset_date := 0
        offset_id := 0
        offset_peer := .empty
        limit := MAX_DIALOGS_PER_REQUEST
        hash := 0 }
    entities := []
    messages := [] }

/-- `Dialogs::update_user_entities`: insert every convertible user into the
entity map, keyed by id (left-to-right `for_each`). -/
def update_user_entities (users : List UserEnum) (s : Dialogs) : Dialogs :=
  match users with
  | [] => s
  | u :: users =>
    match userTryInto u with
    | some user =>
      update_user_entities users
        { s with entities := ainsert user.id (Entity.user user) s.entities }
    | none => update_user_entities users s

/-- `Dialogs::update_chat_entities`: insert every chat and channel into the
entity map, keyed by id; other variants are dropped (`_ => {}`). -/
def update_chat_entities (chats : List ChatEnum) (s : Dialogs) : Dialogs :=
  match chats with
  | [] => s
  | c :: chats =>
    match c with
    | .chat c =>
      update_chat_entities chats
        { s with entities := ainsert c.id (Entity.chat c) s.entities }
    | .channel ch =>
      update_chat_entities chats
        { s with entities := ainsert ch.id (Entity.channel ch) s.entities }
    | .forbidden _ => update_chat_entities chats s

/-- `Dialogs::update_messages`: insert every addressable message into the
message map keyed by `(peer, id)`; empty placeholders are skipped. -/
def update_messages (messages : List Message) (s : Dialogs) : Dialogs :=
  match messages with
  | [] => s
  | m :: messages =>
    match message_id m with
    | some id => update_messages messages { s with messages := ainsert id m s.messages }
    | none => update_messages messages s

/-- One step of `Dialogs::update_dialogs`: join a single descriptor.  A
non-folder descriptor whose peer has an entity in the map consumes that
entity (and its last message, if present) and is pushed; otherwise the
descriptor is dropped. -/
def update_dialogs_step (s : Dialogs) (d : DialogEnum) : Dialogs :=
  match d with
  | .dialog dialog =>
    let pid := peer_id dialog.peer
    match aremove pid s.entities with
    | (some entity, entities) =>
      let (last_message, messages) := aremove (pid, dialog.top_message) s.messages
      { s with
        entities := entities
        messages := messages
        buffer := s.buffer.push { dialog := dialog, entity := entity, last_message := last_message } }
    | (none, _) => s
  | .folder _ => s

/-- The `for_each` loop of `Dialogs::update_dialogs`, applied to an
already-reversed descriptor list. -/
def update_dialogs_go : List DialogEnum → Dialogs → Dialogs
  | [], s => s
  | d :: ds, s => update_dialogs_go ds (update_dialogs_step s d)

/-- `Dialogs::update_dialogs`: walk the descriptors in reverse server order,
joining each against the entity and message maps. -/
def update_dialogs (dialogs : List DialogEnum) (s : Dialogs) : Dialogs :=
  update_dialogs_go dialogs.reverse s

/-- `Dialogs::update_request_offsets`: set `offset_peer` from the batch
head, then scan the batch in storage order for the first item with a last
message and take the offsets from it (an empty placeholder contributes only
its id). -/
def update_request_offsets (s : Dialogs) : Dialogs :=
  let s :=
    match s.buffer.batch.head? with
    | some dialog =>
      { s with buffer :=
        { s.buffer with request :=
          { s.buffer.request with offset_peer := dialog.entity.to_input_peer } } }
    | none => s
  match s.buffer.batch.find? (fun d => d.last_message.isSome) with
  | some dialog =>
    match dialog.last_message with
    | some (.message _ id date) =>
      { s with buffer :=
        { s.buffer with request :=
          { s.buffer.request with offset_id := id, offset_date := date } } }
    | some (.service _ id date) =>
      { s with buffer :=
        { s.buffer with request :=
          { s.buffer.request with offset_id := id, offset_date := date } } }
    | some (.empty id) =>
      { s with buffer :=
        { s.buffer with request :=
          { s.buffer.request with offset_id := id } } }
    | none => s
  | none => s

/-- `tl::enums::messages::Dialogs`: the three dialog response shapes. -/
inductive DialogsResponse : Type
  | dialogs (dialogs : List DialogEnum) (messages : List Message)
      (chats : List ChatEnum) (users : List UserEnum)
  | dialogsSlice (count : Int) (dialogs : List DialogEnum) (messages : List Message)
      (chats : List ChatEnum) (users : List UserEnum)
  | dialogsNotModified (count : Int)
  deriving DecidableEq, Repr

/-- `Dialogs::fill_buffer`, given the already-decoded response of the single
RPC invocation (a failed invocation propagates its `InvocationError`
unchanged through `?` and leaves the state untouched, so only the success
path is modelled). -/
def fill_buffer (resp : DialogsResponse) (s : Dialogs) : Dialogs :=
  match resp with
  | .dialogs dialogs messages chats users =>
    let s := { s with buffer := { s.buffer with total := some dialogs.length, done := true } }
    let s := update_user_entities users s
    let s := update_chat_entities chats s
    let s := update_messages messages s
    update_dialogs dialogs s
  | .dialogsSlice count dialogs messages chats users =>
    let s := { s with buffer :=
      { s.buffer with
        total := some (i32_as_usize count)
        done := decide (dialogs.length < i32_as_usize s.buffer.request.limit) } }
    let s := update_user_entities users s
    let s := update_chat_entities chats s
    let s := update_messages messages s
    let s := update_dialogs dialogs s
    update_request_offsets s
  | .dialogsNotModified count =>
    { s with buffer := { s.buffer with total := some (i32_as_usize count), done := true } }

/-- The non-folder descriptors of a page, in server order (statement
vocabulary for the join claims). -/
def dialogRaws (dialogs : List DialogEnum) : List DialogRaw :=
  dialogs.filterMap (fun d =>
    match d with
    | .dialog raw => some raw
    | .folder _ => none)

/-- Drain a buffer through repeated `pop`, fuel-bounded: the items the
caller observes, in order. -/
def popDrain {Req Item : Type} : Nat → RpcIterBuffer Req Item → List Item
  | 0, _ => []
  | n + 1, b =>
    match b.pop with
    | (none, _) => []
    | (some it, b') => it :: popDrain n b'

/-- The `(id, entity)` bindings a page response writes into the entity map,
in insertion order (statement vocabulary for the last-write-wins claim). -/
def pageEntityWrites (users : List UserEnum) (chats : List ChatEnum) : List (Int × Entity) :=
  users.filterMap (fun u => (userTryInto u).map (fun user => (user.id, Entity.user user)))
    ++ chats.filterMap (fun c =>
        match c with
        | .chat c => some (c.id, Entity.chat c)
        | .channel ch => some (ch.id, Entity.channel ch)
        | .forbidden _ => none)

/-- Apply a list of `(id, entity)` writes to an entity map in order
(statement vocabulary: the sequential-insert reading of the merge step). -/
def applyWrites (ws : List (Int × Entity)) (m : List (Int × Entity)) : List (Int × Entity) :=
  match ws with
  | [] => m
  | w :: ws => applyWrites ws (ainsert w.1 w.2 m)

/-- Whether a message is the empty placeholder variant. -/
def isEmptyMessage : Message → Bool
  | .empty _ => true
  | .message _ _ _ => false
  | .service _ _ _ => false

/-- Invariant (statement vocabulary): the message map holds no empty
placeholder, and no buffered item's `last_message` is an empty placeholder. -/
def no_empty_messages (s : Dialogs) : Bool :=
  s.messages.all (fun kv => !isEmptyMessage kv.2) &&
  s.buffer.batch.all (fun it =>
    match it.last_message with
    | some m => !isEmptyMessage m
    | none => true)

/-- Concrete full user, for ground instances. -/
def exUser (i : Int) : UserEnum :=
  .user { id := i }

/-- Concrete non-folder dialog descriptor addressed to user `p`. -/
def exDialog (p top : Int) : DialogEnum :=
  .dialog { peer := Peer.user p, top_message := top }

/-- Concrete full message addressed to user `p`. -/
def exMessage (p i d : Int) : Message :=
  .message (Peer.user p) i d

/-- Concrete partial-slice page: two dialogs in server order, the first
with last message `id=42, date=1000`, the second with `id=7, date=500`. -/
def exSlicePage : DialogsResponse :=
  .dialogsSlice 250 [exDialog 1 42, exDialog 2 7]
    [exMessage 1 42 1000, exMessage 2 7 500] [] [exUser 1, exUser 2]

/-- The listing state after fetching `exSlicePage` from a fresh listing. -/
def exSliceState : Dialogs :=
  fill_buffer exSlicePage Dialogs.iter

/-- A listing state with entities for peers 1 and 2 already decoded, for
ground instances of the join theorems. -/
def exJoinState : Dialogs :=
  { Dialogs.iter with
    entities := [(1, Entity.user { id := 1 }), (2, Entity.user { id := 2 })] }

/-- A buffered item for peer 5 with no last message. -/
def exItemNoMsg : TDialog :=
  { dialog := { peer := Peer.user 5, top_message := 3 }
    entity := Entity.user { id := 5 }
    last_message := none }

/-- A buffered item for peer 1 whose last message has `id = 42`,
`date = 1000`. -/
def exItemMsg : TDialog :=
  { dialog := { peer := Peer.user 1, top_message := 42 }
    entity := Entity.user { id := 1 }
    last_message := some (Message.message (Peer.user 1) 42 1000) }

/-- A listing state whose batch starts with a message-less item followed by
`exItemMsg`, for a ground instance of the cursor-scan theorem. -/
def exScanState : Dialogs :=
  { Dialogs.iter with
    buffer := { Dialogs.iter.buffer with batch := [exItemNoMsg, exItemMsg] } }

end Dlg

namespace Upd

/-! ## `src/lib/grammers-client/src/client/updates.rs` -/

/-- Opaque payload of `tl::types::MessageFwdHeader` (copied, never read). -/
structure MessageFwdHeader where
  data : Int
  deriving DecidableEq, Repr

/-- Opaque payload of `tl::types::MessageReplyHeader` (copied, never read). -/
structure MessageReplyHeader where
  data : Int
  deriving DecidableEq, Repr

/-- Opaque payload of `tl::enums::MessageEntity` (copied, never read). -/
structure MessageEntity where
  data : Int
  deriving DecidableEq, Repr

/-- Opaque payload of `tl::enums::MessageMedia` (only ever set to `None`). -/
structure MessageMedia where
  data : Int
  deriving DecidableEq, Repr

/-- Opaque payload of `tl::enums::ReplyMarkup` (only ever set to `None`). -/
structure ReplyMarkup where
  data : Int
  deriving DecidableEq, Repr

/-- Opaque payload of `tl::enums::RestrictionReason`. -/
structure RestrictionReason where
  data : Int
  deriving DecidableEq, Repr

/-- `tl::types::Message` as constructed by `next_updates` (the schema in use
by `updates.rs`, with `from_id`/`peer_id` addressing). -/
structure FullMessage where
  out : Bool
  mentioned : Bool
  media_unread : Bool
  silent : Bool
  post : Bool
  from_scheduled : Bool
  legacy : Bool
  edit_hide : Bool
  id : Int
  from_id : Option Peer
  peer_id : Peer
  fwd_from : Option MessageFwdHeader
  via_bot_id : Option Int
  reply_to : Option MessageReplyHeader
  date : Int
  message : String
  media : Option MessageMedia
  reply_markup : Option ReplyMarkup
  entities : Option (List MessageEntity)
  views : Option Int
  forwards : Option Int
  replies : Option Int
  edit_date : Option Int
  post_author : Option String
  grouped_id : Option Int
  restriction_reason : Option (List RestrictionReason)
  deriving DecidableEq, Repr

/-- Opaque payload of `tl::types::MessageService` (never built here). -/
structure MessageService where
  data : Int
  deriving DecidableEq, Repr

/-- `tl::enums::Message` for the `updates.rs` schema. -/
inductive UMessage : Type
  | empty (id : Int)
  | message (m : FullMessage)
  | service (s : MessageService)
  deriving DecidableEq, Repr

/-- `tl::types::UpdateNewMessage`. -/
structure UpdateNewMessage where
  message : UMessage
  pts : Int
  pts_count : Int
  deriving DecidableEq, Repr

/-- `tl::enums::Update`: the one variant this layer constructs, plus the
rest of the closed variant set collapsed into an opaque tag (this layer
never inspects updates it merely forwards). -/
inductive Update : Type
  | newMessage (u : UpdateNewMessage)
  | other (tag : Int)
  deriving DecidableEq, Repr

/-- `tl::types::UpdateShortMessage`: compact single-message envelope
addressed to a single user. -/
structure ShortMessage where
  out : Bool
  mentioned : Bool
  media_unread : Bool
  silent : Bool
  id : Int
  user_id : Int
  message : String
  pts : Int
  pts_count : Int
  date : Int
  fwd_from : Option MessageFwdHeader
  via_bot_id : Option Int
  reply_to : Option MessageReplyHeader
  entities : Option (List MessageEntity)
  deriving DecidableEq, Repr

/-- `tl::types::UpdateShortChatMessage`: compact single-message envelope
addressed to a basic group. -/
structure ShortChatMessage where
  out : Bool
  mentioned : Bool
  media_unread : Bool
  silent : Bool
  id : Int
  from_id : Int
  chat_id : Int
  message : String
  pts : Int
  pts_count : Int
  date : Int
  fwd_from : Option MessageFwdHeader
  via_bot_id : Option Int
  reply_to : Option MessageReplyHeader
  entities : Option (List MessageEntity)
  deriving DecidableEq, Repr

/-- Opaque payload of `tl::types::UpdateShortSentMessage` (response-only
shape, never read on this path). -/
structure ShortSentMessage where
  data : Int
  deriving DecidableEq, Repr

/-- `tl::enums::Updates`: the top-level envelope variants. -/
inductive UpdatesEnum : Type
  | updateShort (update : Update) (date : Int)
  | combined (updates : List Update) (users : List UserEnum) (chats : List ChatEnum)
      (date : Int) (seq_start : Int) (seq : Int)
  | updates (updates : List Update) (users : List UserEnum) (chats : List ChatEnum)
      (date : Int) (seq : Int)
  | updateShortMessage (u : ShortMessage)
  | updateShortChatMessage (u : ShortChatMessage)
  | tooLong
  | updateShortSentMessage (u : ShortSentMessage)
  deriving DecidableEq, Repr

/-- `UpdateIter`: either a single optional update or a reversed backing
vector popped from the end. -/
inductive UpdateIter : Type
  | single (u : Option Update)
  | multiple (us : List Update)
  deriving DecidableEq, Repr

/-- `UpdateIter::single`: wrap one update. -/
def UpdateIter.mkSingle (u : Update) : UpdateIter :=
  .single (some u)

/-- `UpdateIter::multiple`: reverse the list, to be popped from the end. -/
def UpdateIter.mkMultiple (us : List Update) : UpdateIter :=
  .multiple us.reverse

/-- `Iterator::next` for `UpdateIter`: `take` the single element, or
`Vec::pop` from the end of the backing vector. -/
def UpdateIter.next : UpdateIter → Option Update × UpdateIter
  | .single u => (u, .single none)
  | .multiple us => (us.getLast?, .multiple us.dropLast)

/-- Drain an `UpdateIter` through `next`, fuel-bounded: the list of items
the caller observes, in order. -/
def UpdateIter.drain : Nat → UpdateIter → List Update
  | 0, _ => []
  | n + 1, it =>
    match it.next with
    | (none, _) => []
    | (some u, it') => u :: UpdateIter.drain n it'

/-- Specification-side model of event delivery (`refinement` reference):
a plain forward sequence consumed from the front. -/
def forwardDrain : Nat → List Update → List Update
  | 0, _ => []
  | _ + 1, [] => []
  | n + 1, u :: us => u :: forwardDrain n us

/-- `types::EntitySet`: empty, or owning the users and chats of a response. -/
inductive EntitySet : Type
  | empty
  | owned (users : List UserEnum) (chats : List ChatEnum)
  deriving DecidableEq, Repr

/-- Opaque transport error (`grammers_mtsender::ReadError`): contents are
propagated unchanged and never inspected. -/
structure ReadError where
  code : Int
  deriving DecidableEq, Repr

/-- The fatal contract-violation conditions, one per `panic!`/`unwrap` in
`next_updates`. -/
inductive FatalError : Type
  | multipleUpdates
  | tooLong
  | sentMessage
  | missingSelfId
  deriving DecidableEq, Repr

/-- Outcome of handling one transport round-trip in the `next_updates`
loop. -/
inductive StepResult : Type
  | transportError (e : ReadError)
  | retry
  | fatal (f : FatalError)
  | ok (iter : UpdateIter) (entities : EntitySet)
  deriving DecidableEq, Repr

/-- The message synthesized from an `UpdateShortMessage` (the struct literal
in the `UpdateShortMessage` arm), given the caller's own id `me`. -/
def synthShortMessage (me : Int) (u : ShortMessage) : FullMessage :=
  { out := u.out
    mentioned := u.mentioned
    media_unread := u.media_unread
    silent := u.silent
    post := false
    from_scheduled := false
    legacy := false
    edit_hide := false
    id := u.id
    from_id := some (Peer.user (if u.out then me else u.user_id))
    peer_id := Peer.user (if u.out then u.user_id else me)
    fwd_from := u.fwd_from
    via_bot_id := u.via_bot_id
    reply_to := u.reply_to
    date := u.date
    message := u.message
    media := none
    reply_markup := none
    entities := u.entities
    views := none
    forwards := none
    replies := none
    edit_date := none
    post_author := none
    grouped_id := none
    restriction_reason := none }

/-- The message synthesized from an `UpdateShortChatMessage` (the struct
literal in the `UpdateShortChatMessage` arm). -/
def synthShortChatMessage (u : ShortChatMessage) : FullMessage :=
  { out := u.out
    mentioned := u.mentioned
    media_unread := u.media_unread
    silent := u.silent
    post := false
    from_scheduled := false
    legacy := false
    edit_hide := false
    id := u.id
    from_id := some (Peer.user u.from_id)
    peer_id := Peer.chat u.chat_id
    fwd_from := u.fwd_from
    via_bot_id := u.via_bot_id
    reply_to := u.reply_to
    date := u.date
    message := u.message
    media := none
    reply_markup := none
    entities := u.entities
    views := none
    forwards := none
    replies := none
    edit_date := none
    post_author := none
    grouped_id := none
    restriction_reason := none }

/-- Classification of the single envelope of a round-trip (the `match` in
`next_updates`); `selfId` is `self.user_id()`, whose `unwrap` on `None` is
the `missingSelfId` fatal condition. -/
def processEnvelope (selfId : Option Int) : UpdatesEnum → StepResult
  | .updateShort update _ => .ok (UpdateIter.mkSingle update) .empty
  | .combined updates users chats _ _ _ =>
    .ok (UpdateIter.mkMultiple updates) (.owned users chats)
  | .updates updates users chats _ _ =>
    .ok (UpdateIter.mkMultiple updates) (.owned users chats)
  | .updateShortMessage u =>
    match selfId with
    | none => .fatal .missingSelfId
    | some me =>
      .ok
        (UpdateIter.mkSingle (.newMessage
          { message := .message (synthShortMessage me u)
            pts := u.pts
            pts_count := u.pts_count }))
        .empty
  | .updateShortChatMessage u =>
    .ok
      (UpdateIter.mkSingle (.newMessage
        { message := .message (synthShortChatMessage u)
          pts := u.pts
          pts_count := u.pts_count }))
      .empty
  | .tooLong => .fatal .tooLong
  | .updateShortSentMessage _ => .fatal .sentMessage

/-- One iteration of the `next_updates` loop body on the decoded round-trip
result: an empty batch retries, more than one envelope is the
`multipleUpdates` panic, and a single envelope is classified. -/
def processBatch (selfId : Option Int) : List UpdatesEnum → StepResult
  | [] => .retry
  | [env] => processEnvelope selfId env
  | _ => .fatal .multipleUpdates

/-- One iteration of the `next_updates` loop on the raw round-trip result:
`self.step().await?` propagates a transport error unchanged. -/
def handleStep (selfId : Option Int) : Except ReadError (List UpdatesEnum) → StepResult
  | .error e => .transportError e
  | .ok batch => processBatch selfId batch

/-- Concrete compact single-user envelope payload with direction flag `b`,
message id 5 and counterpart user id 9. -/
def exShortMessage (b : Bool) : ShortMessage :=
  { out := b
    mentioned := false
    media_unread := false
    silent := false
    id := 5
    user_id := 9
    message := ""
    pts := 1
    pts_count := 1
    date := 0
    fwd_from := none
    via_bot_id := none
    reply_to := none
    entities := none }

end Upd

namespace Dlg

/-! ## Frame lemmas for the dialog listing -/

/-- `update_user_entities` touches only the entity map. -/
theorem update_user_entities_buffer (users : List UserEnum) (s : Dialogs) :
    (update_user_entities users s).buffer = s.buffer := by
  induction users generalizing s with
  | nil => rfl
  | cons u us ih =>
    cases h : userTryInto u <;> simp only [update_user_entities, h] <;> exact ih _

/-- `update_chat_entities` touches only the entity map. -/
theorem update_chat_entities_buffer (chats : List ChatEnum) (s : Dialogs) :
    (update_chat_entities chats s).buffer = s.buffer := by
  induction chats generalizing s with
  | nil => rfl
  | cons c cs ih =>
    cases c <;> simp only [update_chat_entities] <;> exact ih _

/-- `update_messages` touches only the message map. -/
theorem update_messages_buffer (messages : List Message) (s : Dialogs) :
    (update_messages messages s).buffer = s.buffer := by
  induction messages generalizing s with
  | nil => rfl
  | cons m ms ih =>
    cases h : message_id m <;> simp only [update_messages, h] <;> exact ih _

/-- One join step never changes the request cursor, the total or the done
flag. -/
theorem update_dialogs_step_frame (s : Dialogs) (d : DialogEnum) :
    (update_dialogs_step s d).buffer.request = s.buffer.request ∧
    (update_dialogs_step s d).buffer.total = s.buffer.total ∧
    (update_dialogs_step s d).buffer.done = s.buffer.done := by
  cases d with
  | dialog raw =>
    simp only [update_dialogs_step]
    rcases h : aremove (peer_id raw.peer) s.entities with ⟨_ | entity, rest⟩ <;>
      simp [h, RpcIterBuffer.push]
  | folder i => exact ⟨rfl, rfl, rfl⟩

/-- The join loop never changes the request cursor, the total or the done
flag. -/
theorem update_dialogs_go_frame (ds : List DialogEnum) (s : Dialogs) :
    (update_dialogs_go ds s).buffer.request = s.buffer.request ∧
    (update_dialogs_go ds s).buffer.total = s.buffer.total ∧
    (update_dialogs_go ds s).buffer.done = s.buffer.done := by
  induction ds generalizing s with
  | nil => exact ⟨rfl, rfl, rfl⟩
  | cons d ds ih =>
    have hs := update_dialogs_step_frame s d
    refine ⟨?_, ?_, ?_⟩ <;> simp only [update_dialogs_go]
    · exact ((ih _).1).trans hs.1
    · exact ((ih _).2.1).trans hs.2.1
    · exact ((ih _).2.2).trans hs.2.2

/-- `update_dialogs` never changes the request cursor. -/
theorem update_dialogs_request (ds : List DialogEnum) (s : Dialogs) :
    (update_dialogs ds s).buffer.request = s.buffer.request :=
  (update_dialogs_go_frame ds.reverse s).1

/-- `update_dialogs` never changes the total. -/
theorem update_dialogs_total (ds : List DialogEnum) (s : Dialogs) :
    (update_dialogs ds s).buffer.total = s.buffer.total :=
  (update_dialogs_go_frame ds.reverse s).2.1

/-- `update_dialogs` never changes the done flag. -/
theorem update_dialogs_done (ds : List DialogEnum) (s : Dialogs) :
    (update_dialogs ds s).buffer.done = s.buffer.done :=
  (update_dialogs_go_frame ds.reverse s).2.2

/-- Cursor recomputation touches only the request: batch, total and done
are unchanged. -/
theorem update_request_offsets_frame (s : Dialogs) :
    (update_request_offsets s).buffer.total = s.buffer.total ∧
    (update_request_offsets s).buffer.done = s.buffer.done ∧
    (update_request_offsets s).buffer.batch = s.buffer.batch := by
  unfold update_request_offsets
  dsimp only
  refine ⟨?_, ?_, ?_⟩ <;>
    · repeat' split
      all_goals rfl

/-- **C4.** `fill_buffer` sets the completion state per response shape:
a full list yields `total = length of the returned descriptor list` and
`done = true`; a partial slice yields `total = server-declared count` and
`done = (slice length < requested limit)`; a not-modified response yields
`total = server-declared count`, `done = true`, and adds nothing to the
buffer. -/
theorem fill_buffer_completion (s : Dialogs) (count : Int) (ds : List DialogEnum)
    (ms : List Message) (cs : List ChatEnum) (us : List UserEnum) :
    (fill_buffer (.dialogs ds ms cs us) s).buffer.total = some ds.length ∧
    (fill_buffer (.dialogs ds ms cs us) s).buffer.done = true ∧
    (fill_buffer (.dialogsSlice count ds ms cs us) s).buffer.total
      = some (i32_as_usize count) ∧
    (fill_buffer (.dialogsSlice count ds ms cs us) s).buffer.done
      = decide (ds.length < i32_as_usize s.buffer.request.limit) ∧
    (fill_buffer (.dialogsNotModified count) s).buffer.total
      = some (i32_as_usize count) ∧
    (fill_buffer (.dialogsNotModified count) s).buffer.done = true ∧
    (fill_buffer (.dialogsNotModified count) s).buffer.batch = s.buffer.batch := by
  refine ⟨?_, ?_, ?_, ?_, rfl, rfl, rfl⟩
  · simp only [fill_buffer]
    rw [update_dialogs_total, update_messages_buffer, update_chat_entities_buffer,
      update_user_entities_buffer]
  · simp only [fill_buffer]
    rw [update_dialogs_done, update_messages_buffer, update_chat_entities_buffer,
      update_user_entities_buffer]
  · simp only [fill_buffer]
    rw [(update_request_offsets_frame _).1, update_dialogs_total, update_messages_buffer,
      update_chat_entities_buffer, update_user_entities_buffer]
  · simp only [fill_buffer]
    rw [(update_request_offsets_frame _).2.1, update_dialogs_done, update_messages_buffer,
      update_chat_entities_buffer, update_user_entities_buffer]

/-- **C9.** `fill_buffer` leaves the whole request cursor (its
`offset_id`, `offset_date`, `offset_peer` and `limit` fields included)
unchanged on a full-list response and on a not-modified response. -/
theorem fill_buffer_request_unchanged (s : Dialogs) (count : Int) (ds : List DialogEnum)
    (ms : List Message) (cs : List ChatEnum) (us : List UserEnum) :
    (fill_buffer (.dialogs ds ms cs us) s).buffer.request = s.buffer.request ∧
    (fill_buffer (.dialogsNotModified count) s).buffer.request = s.buffer.request := by
  constructor
  · simp only [fill_buffer]
    rw [update_dialogs_request, update_messages_buffer, update_chat_entities_buffer,
      update_user_entities_buffer]
  · rfl

/-! ## The no-empty-message invariant -/

/-- `update_user_entities` leaves the message map unchanged. -/
theorem update_user_entities_messages (users : List UserEnum) (s : Dialogs) :
    (update_user_entities users s).messages = s.messages := by
  induction users generalizing s with
  | nil => rfl
  | cons u us ih =>
    cases h : userTryInto u <;> simp only [update_user_entities, h] <;> exact ih _

/-- `update_chat_entities` leaves the message map unchanged. -/
theorem update_chat_entities_messages (chats : List ChatEnum) (s : Dialogs) :
    (update_chat_entities chats s).messages = s.messages := by
  induction chats generalizing s with
  | nil => rfl
  | cons c cs ih =>
    cases c <;> simp only [update_chat_entities] <;> exact ih _

/-- Cursor recomputation leaves the message map unchanged. -/
theorem update_request_offsets_messages (s : Dialogs) :
    (update_request_offsets s).messages = s.messages := by
  unfold update_request_offsets
  dsimp only
  repeat' split
  all_goals rfl

/-- Membership survives `aerase`. -/
theorem mem_aerase {κ : Type u} {α : Type v} [DecidableEq κ] (k : κ) (m : List (κ × α))
    (p : κ × α) (h : p ∈ aerase k m) : p ∈ m := by
  induction m with
  | nil =>
    simp [aerase] at h
  | cons q m ih =>
    simp only [aerase] at h
    by_cases hq : q.1 = k
    · rw [if_pos hq] at h
      exact List.mem_cons_of_mem q (ih h)
    · rw [if_neg hq] at h
      rcases List.mem_cons.1 h with h | h
      · exact List.mem_cons.2 (Or.inl h)
      · exact List.mem_cons_of_mem q (ih h)

/-- A successful lookup is a member of the map. -/
theorem alookup_mem {κ : Type u} {α : Type v} [DecidableEq κ] (k : κ) (m : List (κ × α))
    (v : α) (h : alookup k m = some v) : (k, v) ∈ m := by
  induction m with
  | nil => simp [alookup] at h
  | cons p m ih =>
    simp only [alookup] at h
    by_cases hp : p.1 = k
    · rw [if_pos hp] at h
      have hpv : p = (k, v) := by
        cases p
        simp_all
      exact List.mem_cons.2 (Or.inl hpv.symm)
    · rw [if_neg hp] at h
      exact List.mem_cons_of_mem p (ih h)

/-- The first component of `aremove` is the lookup. -/
theorem aremove_fst {κ : Type u} {α : Type v} [DecidableEq κ] (k : κ) (m : List (κ × α)) :
    (aremove k m).1 = alookup k m := by
  unfold aremove
  cases alookup k m <;> rfl

/-- Membership survives the map returned by `aremove`. -/
theorem mem_aremove_snd {κ : Type u} {α : Type v} [DecidableEq κ] (k : κ) (m : List (κ × α))
    (p : κ × α) (h : p ∈ (aremove k m).2) : p ∈ m := by
  unfold aremove at h
  cases hL : alookup k m <;> rw [hL] at h
  · exact h
  · exact mem_aerase k m p h

/-- A message with an addressable key is not the empty placeholder. -/
theorem message_id_not_empty (m : Message) (id : Int × Int) (h : message_id m = some id) :
    isEmptyMessage m = false := by
  cases m <;> simp [message_id, isEmptyMessage] at h ⊢

/-- Unfolding of the `no_empty_messages` invariant. -/
theorem no_empty_messages_iff (s : Dialogs) :
    no_empty_messages s = true ↔
      ((∀ kv ∈ s.messages, isEmptyMessage kv.2 = false) ∧
        (∀ it ∈ s.buffer.batch, ∀ m, it.last_message = some m → isEmptyMessage m = false)) := by
  unfold no_empty_messages
  rw [Bool.and_eq_true, List.all_eq_true, List.all_eq_true]
  constructor
  · rintro ⟨h1, h2⟩
    refine ⟨fun kv hkv => ?_, fun it hit m hm => ?_⟩
    · have h := h1 kv hkv
      simp at h
      exact h
    · have h := h2 it hit
      rw [hm] at h
      simp at h
      exact h
  · rintro ⟨h1, h2⟩
    refine ⟨fun kv hkv => by simpa using h1 kv hkv, fun it hit => ?_⟩
    cases hm : it.last_message with
    | none => rfl
    | some m => simpa using h2 it hit m hm

/-- `update_messages` preserves the absence of empty placeholders in the
message map (it never inserts one). -/
theorem update_messages_no_empty (ms : List Message) (s : Dialogs)
    (hm : ∀ kv ∈ s.messages, isEmptyMessage kv.2 = false) :
    ∀ kv ∈ (update_messages ms s).messages, isEmptyMessage kv.2 = false := by
  induction ms generalizing s with
  | nil => exact hm
  | cons m ms ih =>
    cases hid : message_id m with
    | none =>
      simp only [update_messages, hid]
      exact ih s hm
    | some id =>
      simp only [update_messages, hid]
      apply ih
      intro kv hkv
      rcases List.mem_cons.1 hkv with h | h
      · rw [h]
        exact message_id_not_empty m id hid
      · exact hm kv (mem_aerase id s.messages kv h)

/-- The join loop preserves the invariant: the message map stays free of
empty placeholders and every pushed item's last message (taken from that
map) is not the empty placeholder. -/
theorem update_dialogs_go_no_empty (ds : List DialogEnum) (s : Dialogs)
    (hm : ∀ kv ∈ s.messages, isEmptyMessage kv.2 = false)
    (hb : ∀ it ∈ s.buffer.batch, ∀ m, it.last_message = some m → isEmptyMessage m = false) :
    (∀ kv ∈ (update_dialogs_go ds s).messages, isEmptyMessage kv.2 = false) ∧
      (∀ it ∈ (update_dialogs_go ds s).buffer.batch, ∀ m,
        it.last_message = some m → isEmptyMessage m = false) := by
  induction ds generalizing s with
  | nil => exact ⟨hm, hb⟩
  | cons d ds ih =>
    simp only [update_dialogs_go]
    cases d with
    | folder i => exact ih s hm hb
    | dialog raw =>
      simp only [update_dialogs_step]
      rcases hr : aremove (peer_id raw.peer) s.entities with ⟨_ | entity, rest⟩
      · simp only [hr]
        exact ih s hm hb
      · simp only [hr]
        apply ih
        · intro kv hkv
          exact hm kv (mem_aremove_snd _ s.messages kv hkv)
        · intro it hit m hsome
          simp only [RpcIterBuffer.push] at hit
          rcases List.mem_append.1 hit with h | h
          · exact hb it h m hsome
          · have hx := List.mem_singleton.1 h
            rw [hx] at hsome
            simp only at hsome
            have hfst : (aremove (peer_id raw.peer, raw.top_message) s.messages).1 = some m :=
              hsome
            rw [aremove_fst] at hfst
            exact hm (_, m) (alookup_mem _ s.messages m hfst)

/-- The whole merge pipeline of one page preserves the invariant. -/
theorem merge_no_empty (ds : List DialogEnum) (ms : List Message) (cs : List ChatEnum)
    (us : List UserEnum) (x : Dialogs)
    (hm : ∀ kv ∈ x.messages, isEmptyMessage kv.2 = false)
    (hb : ∀ it ∈ x.buffer.batch, ∀ m, it.last_message = some m → isEmptyMessage m = false) :
    (∀ kv ∈ (update_dialogs ds (update_messages ms
        (update_chat_entities cs (update_user_entities us x)))).messages,
      isEmptyMessage kv.2 = false) ∧
      (∀ it ∈ (update_dialogs ds (update_messages ms
          (update_chat_entities cs (update_user_entities us x)))).buffer.batch, ∀ m,
        it.last_message = some m → isEmptyMessage m = false) := by
  simp only [update_dialogs]
  apply update_dialogs_go_no_empty
  · apply update_messages_no_empty
    rw [update_chat_entities_messages, update_user_entities_messages]
    exact hm
  · rw [update_messages_buffer, update_chat_entities_buffer, update_user_entities_buffer]
    exact hb

/-- **C10.** The listing starts with no empty-placeholder message anywhere,
and `fill_buffer` preserves this: empty messages are never inserted into
the message-by-`(peer, id)` map, so no Dialog ever placed in the buffer has
an empty-placeholder `last_message` (the empty-message branch of cursor
recomputation can never fire for a buffered dialog). -/
theorem buffer_last_message_never_empty :
    no_empty_messages Dialogs.iter = true ∧
    ∀ (resp : DialogsResponse) (s : Dialogs),
      no_empty_messages s = true → no_empty_messages (fill_buffer resp s) = true := by
  refine ⟨rfl, fun resp s hs => ?_⟩
  have hm := ((no_empty_messages_iff s).1 hs).1
  have hb := ((no_empty_messages_iff s).1 hs).2
  cases resp with
  | dialogsNotModified count => exact hs
  | dialogs ds ms cs us =>
    rw [no_empty_messages_iff]
    simp only [fill_buffer]
    refine merge_no_empty ds ms cs us _ ?_ ?_
    · exact hm
    · exact hb
  | dialogsSlice count ds ms cs us =>
    rw [no_empty_messages_iff]
    simp only [fill_buffer]
    constructor
    · rw [update_request_offsets_messages]
      refine (merge_no_empty ds ms cs us _ ?_ ?_).1
      · exact hm
      · exact hb
    · rw [(update_request_offsets_frame _).2.2]
      refine (merge_no_empty ds ms cs us _ ?_ ?_).2
      · exact hm
      · exact hb

/-- Ground instance of `buffer_last_message_never_empty` on the concrete
slice page fetched from a fresh listing. -/
theorem buffer_last_message_never_empty_witness :
    no_empty_messages (fill_buffer exSlicePage Dialogs.iter) = true :=
  buffer_last_message_never_empty.2 exSlicePage Dialogs.iter (by rfl)

/-! ## Cursor recomputation -/

/-- **C1 is false on the code.**  On the concrete page `exSlicePage` the
first buffered dialog in original (forward) server order — the first item
the caller receives from the buffer — has last message `id = 42`,
`date = 1000`, yet the recomputed request carries `offset_id = 7` and
`offset_date = 500`, taken from the *other* (server-order last) dialog:
cursor recomputation does not scan the buffered items in forward server
order and does not use the first such dialog. -/
theorem update_request_offsets_not_forward_scan :
    ((exSliceState.buffer.pop).1.map (fun it => it.last_message))
        = some (some (Message.message (Peer.user 1) 42 1000)) ∧
    exSliceState.buffer.request.offset_id = 7 ∧
    exSliceState.buffer.request.offset_date = 500 ∧
    ¬(exSliceState.buffer.request.offset_id = 42 ∧
      exSliceState.buffer.request.offset_date = 1000) := by
  decide

/-- **C1 (amended).**  Cursor recomputation scans the buffered items in the
internal batch's storage order — which is *reverse* server order — and sets
the offsets from the *first* dialog in that scan that has a last message,
stopping after the first match: for any batch decomposition
`pre ++ d :: rest` where no item of `pre` has a last message and `d` has
one, the new `offset_id` is that message's id and the new `offset_date` is
that message's date (a full or service message), while an empty placeholder
contributes only its id and leaves `offset_date` unchanged — regardless of
the items in `rest`. -/
theorem update_request_offsets_scan (s : Dialogs) (pre rest : List TDialog) (d : TDialog)
    (m : Message) (hbatch : s.buffer.batch = pre ++ d :: rest)
    (hpre : ∀ it ∈ pre, it.last_message = none)
    (hmsg : d.last_message = some m) :
    (update_request_offsets s).buffer.request.offset_id
        = (match m with
            | Message.message _ i _ => i
            | Message.service _ i _ => i
            | Message.empty i => i) ∧
      (update_request_offsets s).buffer.request.offset_date
        = (match m with
            | Message.message _ _ dt => dt
            | Message.service _ _ dt => dt
            | Message.empty _ => s.buffer.request.offset_date) := by
  have hfind : List.find? (fun it => it.last_message.isSome) s.buffer.batch = some d := by
    rw [hbatch, List.find?_append]
    have hpre0 : List.find? (fun it => it.last_message.isSome) pre = none := by
      rw [List.find?_eq_none]
      intro x hx
      simp [hpre x hx]
    rw [hpre0]
    simp [List.find?_cons, hmsg]
  rcases hhead : s.buffer.batch with _ | ⟨x0, tail⟩
  · rw [hhead] at hbatch
    exact absurd hbatch.symm (by simp)
  · rw [hhead] at hfind
    unfold update_request_offsets
    dsimp only
    rw [hhead]
    simp only [List.head?_cons]
    rw [hfind]
    rcases m with ⟨mp, mi, md⟩ | ⟨mp, mi, md⟩ | mi <;> simp [hmsg]

/-- Ground instance of `update_request_offsets_scan`: the batch head has no
last message and is skipped; the offsets come from the second item, whose
last message has `id = 42`, `date = 1000`. -/
theorem update_request_offsets_scan_witness :
    (update_request_offsets exScanState).buffer.request.offset_id = 42 ∧
    (update_request_offsets exScanState).buffer.request.offset_date = 1000 := by
  have h := update_request_offsets_scan exScanState [exItemNoMsg] [] exItemMsg
    (Message.message (Peer.user 1) 42 1000) (by decide) (by decide) (by decide)
  exact h

/-! ## Last-write-wins characterization of the entity merge -/

/-- Erasing one key does not affect lookups of another. -/
theorem alookup_aerase_ne {κ : Type u} {α : Type v} [DecidableEq κ] (k k' : κ)
    (m : List (κ × α)) (h : k' ≠ k) :
    alookup k (aerase k' m) = alookup k m := by
  induction m with
  | nil => rfl
  | cons p m ih =>
    simp only [aerase, alookup]
    by_cases hp : p.1 = k'
    · have hk : ¬p.1 = k := fun hh => h (hp.symm.trans hh)
      simp [hp, hk, ih, h]
    · by_cases hk : p.1 = k <;> simp [hp, hk, alookup, ih, h, Ne.symm h]

/-- Lookup after insert: the inserted binding wins on its own key and is
invisible on the others. -/
theorem alookup_ainsert {κ : Type u} {α : Type v} [DecidableEq κ] (k k' : κ) (v : α)
    (m : List (κ × α)) :
    alookup k (ainsert k' v m) = if k' = k then some v else alookup k m := by
  by_cases h : k' = k
  · simp [ainsert, alookup, h]
  · simp [ainsert, alookup, h, alookup_aerase_ne k k' m h]

/-- Lookup after a sequence of writes: the last write on the key wins,
falling back to the original map. -/
theorem alookup_applyWrites (ws : List (Int × Entity)) (m : List (Int × Entity)) (k : Int) :
    alookup k (applyWrites ws m)
      = ((ws.reverse.find? (fun p => decide (p.1 = k))).map Prod.snd).or (alookup k m) := by
  induction ws generalizing m with
  | nil => rfl
  | cons w ws ih =>
    simp only [applyWrites, List.reverse_cons, List.find?_append]
    rw [ih, alookup_ainsert]
    cases hF : ws.reverse.find? (fun p => decide (p.1 = k)) with
    | some p => simp
    | none => by_cases hw : w.1 = k <;> simp [List.find?_cons, hw]

/-- `update_user_entities` is the write sequence of the page's convertible
users, applied in order. -/
theorem update_user_entities_entities (users : List UserEnum) (s : Dialogs) :
    (update_user_entities users s).entities
      = applyWrites
          (users.filterMap (fun u => (userTryInto u).map (fun user => (user.id, Entity.user user))))
          s.entities := by
  induction users generalizing s with
  | nil => rfl
  | cons u us ih =>
    cases h : userTryInto u <;>
      simp only [update_user_entities, List.filterMap_cons, h, Option.map_none',
        Option.map_some'] <;>
      simp [applyWrites, ih]

/-- `update_chat_entities` is the write sequence of the page's chats and
channels, applied in order. -/
theorem update_chat_entities_entities (chats : List ChatEnum) (s : Dialogs) :
    (update_chat_entities chats s).entities
      = applyWrites
          (chats.filterMap (fun c =>
            match c with
            | .chat c => some (c.id, Entity.chat c)
            | .channel ch => some (ch.id, Entity.channel ch)
            | .forbidden _ => none))
          s.entities := by
  induction chats generalizing s with
  | nil => rfl
  | cons c cs ih =>
    cases c <;> simp only [update_chat_entities, List.filterMap_cons] <;> simp [applyWrites, ih]

/-- Write sequences compose by concatenation. -/
theorem applyWrites_append (ws1 ws2 : List (Int × Entity)) (m : List (Int × Entity)) :
    applyWrites (ws1 ++ ws2) m = applyWrites ws2 (applyWrites ws1 m) := by
  induction ws1 generalizing m with
  | nil => rfl
  | cons w ws ih => simp [applyWrites, ih]

/-- **C8.** The merge step inserts every user, chat and channel of the
page's response into the entity-by-peer-id map keyed by its numeric id:
after the merge, looking up any id yields the value of the last write of
that id in the page (users first, then chats/channels, each in response
order), and falls back to the pre-page map when the page never writes the
id. -/
theorem update_entities_last_write_wins (s : Dialogs) (users : List UserEnum)
    (chats : List ChatEnum) (k : Int) :
    alookup k (update_chat_entities chats (update_user_entities users s)).entities
      = (((pageEntityWrites users chats).reverse.find? (fun p => decide (p.1 = k))).map
          Prod.snd).or (alookup k s.entities) := by
  rw [update_chat_entities_entities, update_user_entities_entities, ← applyWrites_append]
  exact alookup_applyWrites (pageEntityWrites users chats) s.entities k

/-! ## The join: order and membership -/

/-- Shape of one join step when the descriptor's peer has an entity. -/
theorem update_dialogs_step_present (s : Dialogs) (raw0 : DialogRaw) (entity : Entity)
    (ho : alookup (peer_id raw0.peer) s.entities = some entity) :
    update_dialogs_step s (.dialog raw0)
      = { s with
          entities := aerase (peer_id raw0.peer) s.entities
          messages := (aremove (peer_id raw0.peer, raw0.top_message) s.messages).2
          buffer := s.buffer.push
            { dialog := raw0
              entity := entity
              last_message := (aremove (peer_id raw0.peer, raw0.top_message) s.messages).1 } } := by
  have hrm : aremove (peer_id raw0.peer) s.entities
      = (some entity, aerase (peer_id raw0.peer) s.entities) := by
    unfold aremove
    rw [ho]
  unfold update_dialogs_step
  dsimp only
  rw [hrm]

/-- Shape of one join step when the descriptor's peer has no entity: the
descriptor is dropped and the state is untouched (no error, no panic). -/
theorem update_dialogs_step_absent (s : Dialogs) (raw0 : DialogRaw)
    (ho : alookup (peer_id raw0.peer) s.entities = none) :
    update_dialogs_step s (.dialog raw0) = s := by
  have hrm : aremove (peer_id raw0.peer) s.entities = (none, s.entities) := by
    unfold aremove
    rw [ho]
  unfold update_dialogs_step
  dsimp only
  rw [hrm]

/-- Items already buffered stay buffered through the join loop. -/
theorem update_dialogs_go_batch_mono (l : List DialogEnum) (s : Dialogs) (it : TDialog)
    (h : it ∈ s.buffer.batch) : it ∈ (update_dialogs_go l s).buffer.batch := by
  induction l generalizing s with
  | nil => exact h
  | cons d l ih =>
    simp only [update_dialogs_go]
    apply ih
    cases d with
    | folder i => exact h
    | dialog raw =>
      rcases ho : alookup (peer_id raw.peer) s.entities with _ | entity
      · rw [update_dialogs_step_absent s raw ho]
        exact h
      · rw [update_dialogs_step_present s raw entity ho]
        simp only [RpcIterBuffer.push]
        exact List.mem_append_left _ h

/-- `dialogRaws` commutes with reversal. -/
theorem dialogRaws_reverse (l : List DialogEnum) :
    dialogRaws l.reverse = (dialogRaws l).reverse :=
  List.filterMap_reverse _ l

/-- When every descriptor of the processed list has a distinct peer id with
an entity present, the join loop appends exactly those descriptors' items,
in processing order. -/
theorem update_dialogs_go_batch_map (l : List DialogEnum) (s : Dialogs)
    (hnodup : ((dialogRaws l).map (fun raw => peer_id raw.peer)).Nodup)
    (hpresent : ∀ raw ∈ dialogRaws l, (alookup (peer_id raw.peer) s.entities).isSome = true) :
    (update_dialogs_go l s).buffer.batch.map (fun it => it.dialog)
      = s.buffer.batch.map (fun it => it.dialog) ++ dialogRaws l := by
  induction l generalizing s with
  | nil => simp [update_dialogs_go, dialogRaws]
  | cons d l ih =>
    cases d with
    | folder i =>
      have hdr : dialogRaws (DialogEnum.folder i :: l) = dialogRaws l := by
        simp [dialogRaws]
      rw [hdr] at hnodup hpresent ⊢
      simp only [update_dialogs_go, update_dialogs_step]
      exact ih s hnodup hpresent
    | dialog raw =>
      have hdr : dialogRaws (DialogEnum.dialog raw :: l) = raw :: dialogRaws l := by
        simp [dialogRaws]
      rw [hdr] at hnodup hpresent ⊢
      rw [List.map_cons, List.nodup_cons] at hnodup
      obtain ⟨hnd1, hnd2⟩ := hnodup
      have hpres0 : (alookup (peer_id raw.peer) s.entities).isSome = true :=
        hpresent raw (List.mem_cons_self raw _)
      rcases ho : alookup (peer_id raw.peer) s.entities with _ | entity
      · rw [ho] at hpres0
        simp at hpres0
      · simp only [update_dialogs_go]
        rw [update_dialogs_step_present s raw entity ho]
        have hp' : ∀ raw' ∈ dialogRaws l,
            (alookup (peer_id raw'.peer) (aerase (peer_id raw.peer) s.entities)).isSome
              = true := by
          intro raw' hmem
          have hne : peer_id raw.peer ≠ peer_id raw'.peer := by
            intro he
            exact hnd1 (he ▸ List.mem_map.2 ⟨raw', hmem, rfl⟩)
          rw [alookup_aerase_ne _ _ _ hne]
          exact hpresent raw' (List.mem_cons_of_mem raw hmem)
        rw [ih _ hnd2 hp']
        simp [RpcIterBuffer.push]

/-- Popping the whole buffer yields the batch reversed. -/
theorem popDrain_all {Req Item : Type} (req : Req) (bl : List Item) (tot : Option Nat)
    (dn : Bool) :
    popDrain bl.length { request := req, batch := bl, total := tot, done := dn }
      = bl.reverse := by
  induction bl using List.reverseRecOn with
  | nil => rfl
  | append_singleton l a ih =>
    have hlen : (l ++ [a]).length = l.length + 1 := by simp
    rw [hlen]
    simp only [popDrain, RpcIterBuffer.pop, List.getLast?_concat, List.dropLast_concat]
    rw [ih]
    simp

/-- Popping the whole buffer yields its batch reversed. -/
theorem popDrain_buffer {Req Item : Type} (b : RpcIterBuffer Req Item) :
    popDrain b.batch.length b = b.batch.reverse := by
  rcases b with ⟨req, bl, tot, dn⟩
  exact popDrain_all req bl tot dn

/-- **C7.** Within one page, draining the buffer through repeated pops
returns the joined Dialog items in exactly the server-provided descriptor
order: the reverse traversal plus push-to-end plus pop-from-end is
order-preserving (stated for a page whose descriptors have pairwise
distinct peer ids, all resolvable, so that no item is dropped). -/
theorem dialog_listing_order (s : Dialogs) (ds : List DialogEnum)
    (hempty : s.buffer.batch = [])
    (hnodup : ((dialogRaws ds).map (fun raw => peer_id raw.peer)).Nodup)
    (hpresent : ∀ raw ∈ dialogRaws ds,
      (alookup (peer_id raw.peer) s.entities).isSome = true) :
    (popDrain (update_dialogs ds s).buffer.batch.length
        (update_dialogs ds s).buffer).map (fun it => it.dialog)
      = dialogRaws ds := by
  have hn : ((dialogRaws ds.reverse).map (fun raw => peer_id raw.peer)).Nodup := by
    rw [dialogRaws_reverse, List.map_reverse]
    exact List.nodup_reverse.2 hnodup
  have hp : ∀ raw ∈ dialogRaws ds.reverse,
      (alookup (peer_id raw.peer) s.entities).isSome = true := by
    intro raw hr
    rw [dialogRaws_reverse] at hr
    exact hpresent raw (List.mem_reverse.1 hr)
  have hmap := update_dialogs_go_batch_map ds.reverse s hn hp
  rw [dialogRaws_reverse, hempty] at hmap
  simp only [List.map_nil, List.nil_append] at hmap
  simp only [update_dialogs]
  rw [popDrain_buffer, List.map_reverse, hmap, List.reverse_reverse]

/-- Ground instance of `dialog_listing_order`: two descriptors fed in a
known order come back from the buffer in that same order. -/
theorem dialog_listing_order_witness :
    (popDrain (update_dialogs [exDialog 1 42, exDialog 2 7] exJoinState).buffer.batch.length
        (update_dialogs [exDialog 1 42, exDialog 2 7] exJoinState).buffer).map
        (fun it => it.dialog)
      = dialogRaws [exDialog 1 42, exDialog 2 7] :=
  dialog_listing_order exJoinState [exDialog 1 42, exDialog 2 7] (by decide) (by decide)
    (by decide)

/-- Membership characterization of the join loop: an item is pushed for a
descriptor iff that descriptor is a non-folder one whose peer id resolves
in the entity map (descriptor peer ids assumed pairwise distinct), and
everything in the final batch either was already there or stems from a
non-folder descriptor. -/
theorem update_dialogs_go_mem (l : List DialogEnum) (s : Dialogs)
    (hnodup : ((dialogRaws l).map (fun raw => peer_id raw.peer)).Nodup) :
    (∀ raw ∈ dialogRaws l,
      ((∃ it ∈ (update_dialogs_go l s).buffer.batch, it.dialog = raw) ↔
        ((∃ it ∈ s.buffer.batch, it.dialog = raw) ∨
          (alookup (peer_id raw.peer) s.entities).isSome = true))) ∧
    (∀ it ∈ (update_dialogs_go l s).buffer.batch,
      it ∈ s.buffer.batch ∨ it.dialog ∈ dialogRaws l) := by
  induction l generalizing s with
  | nil =>
    constructor
    · intro raw hr
      simp [dialogRaws] at hr
    · intro it hit
      exact Or.inl hit
  | cons d l ih =>
    cases d with
    | folder i =>
      have hdr : dialogRaws (DialogEnum.folder i :: l) = dialogRaws l := by
        simp [dialogRaws]
      rw [hdr] at hnodup ⊢
      simp only [update_dialogs_go, update_dialogs_step]
      exact ih s hnodup
    | dialog raw0 =>
      have hdr : dialogRaws (DialogEnum.dialog raw0 :: l) = raw0 :: dialogRaws l := by
        simp [dialogRaws]
      rw [hdr] at hnodup ⊢
      rw [List.map_cons, List.nodup_cons] at hnodup
      obtain ⟨hnd1, hnd2⟩ := hnodup
      simp only [update_dialogs_go]
      rcases ho : alookup (peer_id raw0.peer) s.entities with _ | entity
      · rw [update_dialogs_step_absent s raw0 ho]
        have ihs := ih s hnd2
        constructor
        · intro raw hr
          rcases List.mem_cons.1 hr with rfl | hr
          · rw [ho]
            constructor
            · rintro ⟨it, hit, hdlg⟩
              rcases ihs.2 it hit with hin | hdl
              · exact Or.inl ⟨it, hin, hdlg⟩
              · exact absurd (hdlg ▸ List.mem_map.2 ⟨it.dialog, hdl, rfl⟩) hnd1
            · rintro (⟨it, hin, hdlg⟩ | habs)
              · exact ⟨it, update_dialogs_go_batch_mono l s it hin, hdlg⟩
              · simp at habs
          · exact ihs.1 raw hr
        · intro it hit
          rcases ihs.2 it hit with h | h
          · exact Or.inl h
          · exact Or.inr (List.mem_cons_of_mem _ h)
      · rw [update_dialogs_step_present s raw0 entity ho]
        have ihs := ih
          { s with
            entities := aerase (peer_id raw0.peer) s.entities
            messages := (aremove (peer_id raw0.peer, raw0.top_message) s.messages).2
            buffer := s.buffer.push
              { dialog := raw0
                entity := entity
                last_message := (aremove (peer_id raw0.peer, raw0.top_message) s.messages).1 } }
          hnd2
        constructor
        · intro raw hr
          rcases List.mem_cons.1 hr with rfl | hr
          · constructor
            · intro _
              rw [ho]
              exact Or.inr rfl
            · intro _
              refine ⟨{ dialog := raw, entity := entity, last_message := (aremove (peer_id raw.peer, raw.top_message) s.messages).1 }, update_dialogs_go_batch_mono l _ _ ?_, rfl⟩
              simp [RpcIterBuffer.push]
          · have hne : peer_id raw0.peer ≠ peer_id raw.peer := by
              intro he
              exact hnd1 (he ▸ List.mem_map.2 ⟨raw, hr, rfl⟩)
            refine (ihs.1 raw hr).trans (or_congr ?_ ?_)
            · constructor
              · rintro ⟨it, hit, hdlg⟩
                simp only [RpcIterBuffer.push] at hit
                rcases List.mem_append.1 hit with hin | hone
                · exact ⟨it, hin, hdlg⟩
                · rw [List.mem_singleton.1 hone] at hdlg
                  exact absurd (congrArg (fun r => peer_id r.peer) hdlg) hne
              · rintro ⟨it, hin, hdlg⟩
                refine ⟨it, ?_, hdlg⟩
                simp only [RpcIterBuffer.push]
                exact List.mem_append_left _ hin
            · have heq : alookup (peer_id raw.peer) (aerase (peer_id raw0.peer) s.entities)
                  = alookup (peer_id raw.peer) s.entities :=
                alookup_aerase_ne _ _ _ hne
              dsimp only
              rw [heq]
        · intro it hit
          rcases ihs.2 it hit with h | h
          · simp only [RpcIterBuffer.push] at h
            rcases List.mem_append.1 h with hin | hone
            · exact Or.inl hin
            · rw [List.mem_singleton.1 hone]
              exact Or.inr (List.mem_cons_self _ _)
          · exact Or.inr (List.mem_cons_of_mem _ h)

/-- **C6.** Starting from an empty buffer, a Dialog item appears in the
buffer for a descriptor iff the descriptor is a non-folder descriptor whose
peer id has a matching entity in the entity map (peer ids pairwise
distinct); a non-resolvable descriptor is silently dropped and folder
descriptors never contribute an item. -/
theorem update_dialogs_push_iff (s : Dialogs) (ds : List DialogEnum)
    (hempty : s.buffer.batch = [])
    (hnodup : ((dialogRaws ds).map (fun raw => peer_id raw.peer)).Nodup) :
    (∀ raw ∈ dialogRaws ds,
      ((∃ it ∈ (update_dialogs ds s).buffer.batch, it.dialog = raw) ↔
        (alookup (peer_id raw.peer) s.entities).isSome = true)) ∧
    (∀ it ∈ (update_dialogs ds s).buffer.batch, it.dialog ∈ dialogRaws ds) := by
  have hn : ((dialogRaws ds.reverse).map (fun raw => peer_id raw.peer)).Nodup := by
    rw [dialogRaws_reverse, List.map_reverse]
    exact List.nodup_reverse.2 hnodup
  have h := update_dialogs_go_mem ds.reverse s hn
  simp only [update_dialogs]
  constructor
  · intro raw hr
    have hr' : raw ∈ dialogRaws ds.reverse := by
      rw [dialogRaws_reverse]
      exact List.mem_reverse.2 hr
    refine (h.1 raw hr').trans ?_
    rw [hempty]
    simp
  · intro it hit
    rcases h.2 it hit with hin | hdl
    · rw [hempty] at hin
      simp at hin
    · rw [dialogRaws_reverse] at hdl
      exact List.mem_reverse.1 hdl

/-- Ground instance of `update_dialogs_push_iff`: with entities present for
peers 1 and 2 only, the descriptor for peer 1 is buffered and the
descriptor for peer 3 is silently dropped. -/
theorem update_dialogs_push_iff_witness :
    (∃ it ∈ (update_dialogs [exDialog 1 42, exDialog 3 9, DialogEnum.folder 0]
        exJoinState).buffer.batch,
      it.dialog = { peer := Peer.user 1, top_message := 42 }) ∧
    ¬(∃ it ∈ (update_dialogs [exDialog 1 42, exDialog 3 9, DialogEnum.folder 0]
        exJoinState).buffer.batch,
      it.dialog = { peer := Peer.user 3, top_message := 9 }) := by
  have h := update_dialogs_push_iff exJoinState
    [exDialog 1 42, exDialog 3 9, DialogEnum.folder 0] (by decide) (by decide)
  constructor
  · exact (h.1 { peer := Peer.user 1, top_message := 42 } (by decide)).2 (by decide)
  · intro hex
    have hx := (h.1 { peer := Peer.user 3, top_message := 9 } (by decide)).1 hex
    exact absurd hx (by decide)

end Dlg

namespace Upd

/-! ## Theorems about the update normalizer -/

/-- Draining a reversed backing list through end-pops recovers the original
list. -/
theorem drain_mkMultiple (us : List Update) :
    UpdateIter.drain us.length (UpdateIter.mkMultiple us) = us := by
  induction us with
  | nil => rfl
  | cons u us ih =>
    simp only [UpdateIter.mkMultiple] at ih ⊢
    simp only [List.length_cons, List.reverse_cons, UpdateIter.drain, UpdateIter.next,
      List.getLast?_concat, List.dropLast_concat]
    exact congrArg (u :: ·) ih

/-- The forward specification model delivers the whole list. -/
theorem forwardDrain_length (us : List Update) : forwardDrain us.length us = us := by
  induction us with
  | nil => rfl
  | cons u us ih =>
    simp only [List.length_cons, forwardDrain]
    exact congrArg (u :: ·) ih

/-- **C2.** For a compact single-message envelope addressed to a single
user, classification (given a known own id) synthesizes a new-message
event; with the direction flag outgoing and own id `me`, the sender peer
`from_id` is `me` and the recipient peer `peer_id` is the envelope's
counterpart user id; with the flag incoming, the two are swapped. -/
theorem short_message_sender_recipient (me : Int) (u : ShortMessage) :
    processEnvelope (some me) (.updateShortMessage u) =
      .ok
        (UpdateIter.mkSingle (.newMessage
          { message := .message (synthShortMessage me u)
            pts := u.pts
            pts_count := u.pts_count }))
        .empty ∧
    (u.out = true →
      (synthShortMessage me u).from_id = some (Peer.user me) ∧
      (synthShortMessage me u).peer_id = Peer.user u.user_id) ∧
    (u.out = false →
      (synthShortMessage me u).from_id = some (Peer.user u.user_id) ∧
      (synthShortMessage me u).peer_id = Peer.user me) := by
  refine ⟨rfl, ?_, ?_⟩ <;> intro h <;> simp [synthShortMessage, h]

/-- Ground instance of `short_message_sender_recipient` at own id 3,
counterpart id 9, direction outgoing. -/
theorem short_message_sender_recipient_witness :
    (exShortMessage true).out = true ∧
    (synthShortMessage 3 (exShortMessage true)).from_id = some (Peer.user 3) ∧
    (synthShortMessage 3 (exShortMessage true)).peer_id = Peer.user 9 :=
  ⟨rfl, ((short_message_sender_recipient 3 (exShortMessage true)).2.1 rfl).1,
    ((short_message_sender_recipient 3 (exShortMessage true)).2.1 rfl).2⟩

/-- **C3.** Both multi-event envelope shapes classify to an iterator over
the contained event list and an owned entity context; draining the iterator
yields exactly the original events in original server order, and agrees
with the specification-side plain forward sequence. -/
theorem multi_envelope_order (selfId : Option Int) (us : List Update)
    (users : List UserEnum) (chats : List ChatEnum) (d ss q : Int) :
    processEnvelope selfId (.combined us users chats d ss q) =
      .ok (UpdateIter.mkMultiple us) (.owned users chats) ∧
    processEnvelope selfId (.updates us users chats d q) =
      .ok (UpdateIter.mkMultiple us) (.owned users chats) ∧
    UpdateIter.drain us.length (UpdateIter.mkMultiple us) = us ∧
    UpdateIter.drain us.length (UpdateIter.mkMultiple us) = forwardDrain us.length us :=
  ⟨rfl, rfl, drain_mkMultiple us,
    (drain_mkMultiple us).trans (forwardDrain_length us).symm⟩

/-- **C5.** A round-trip that yields two or more top-level envelopes is
classified as the `multipleUpdates` fatal contract violation — a
constructor distinct from the transport-error propagation path — and never
as an `ok` (truncated) result. -/
theorem multiple_envelopes_fatal (selfId : Option Int) (batch : List UpdatesEnum)
    (h : 2 ≤ batch.length) :
    handleStep selfId (.ok batch) = .fatal .multipleUpdates ∧
    (∀ e : ReadError, handleStep selfId (.error e) = .transportError e) := by
  rcases batch with _ | ⟨x, _ | ⟨y, rest⟩⟩
  · simp at h
  · simp at h
  · exact ⟨rfl, fun _ => rfl⟩

/-- Ground instance of `multiple_envelopes_fatal` on a two-envelope
round-trip. -/
theorem multiple_envelopes_fatal_witness :
    handleStep none (.ok [UpdatesEnum.tooLong, UpdatesEnum.tooLong])
      = .fatal .multipleUpdates ∧
    handleStep none (.error { code := 3 }) = .transportError { code := 3 } :=
  ⟨(multiple_envelopes_fatal none [UpdatesEnum.tooLong, UpdatesEnum.tooLong] (by decide)).1,
    (multiple_envelopes_fatal none [UpdatesEnum.tooLong, UpdatesEnum.tooLong] (by decide)).2
      { code := 3 }⟩

end Upd

end Grammers
